import Mathlib

/-!
A verification development for `kitty/open_actions.py`: a rule-based URL
dispatcher.  Rule blocks (match criteria + actions) are parsed from a
line-oriented config format; a URL is dispatched to the actions of the first
block all of whose criteria match.

The embedding works over `List Char` / `String` with executable, structurally
recursive primitives mirroring the Python string operations used by the source
(ASCII-faithful: Python's `str.lower`/`str.strip` are Unicode-aware, the
configs and URLs involved here are ASCII).  External Python collaborators
(`urllib.parse.urlparse`, `re`, `fnmatch`, `mimetypes.guess_type`) are given
small executable models covering the behaviour the source relies on; kitty
helpers that live outside this file's source (`to_bool`, `parse_key_action`,
`expandvars`) are modelled from the specification and marked as such.
-/

/-- Python whitespace characters, as used by `str.strip` and `str.split`. -/
def isSpaceChar (c : Char) : Bool :=
  c == ' ' || c == '\t' || c == '\n' || c == '\r' || c.toNat == 11 || c.toNat == 12

/-- ASCII lower-casing of one character, as Python `str.lower` does on ASCII. -/
def lowerChar (c : Char) : Char :=
  if 65 ≤ c.toNat ∧ c.toNat ≤ 90 then Char.ofNat (c.toNat + 32) else c

/-- Python `str.lower`, restricted to ASCII case mapping. -/
def pyLower (s : String) : String :=
  String.mk (s.data.map lowerChar)

/-- Python `str.strip()`: drop leading and trailing whitespace. -/
def pyStrip (s : String) : String :=
  String.mk (((s.data.dropWhile isSpaceChar).reverse.dropWhile isSpaceChar).reverse)

/-- Python `str.startswith` for a single-character prefix test. -/
def pyStartsWithHash (s : String) : Bool :=
  match s.data with
  | '#' :: _ => true
  | _ => false

/-- Python `str.endswith`. -/
def pyEndsWith (s suffix : String) : Bool :=
  decide (s.data.drop (s.data.length - suffix.data.length) = suffix.data)

/-- Helper for `pySplitComma`: accumulate the current field (reversed). -/
def splitCommaGo : List Char → List Char → List String
  | [], acc => [String.mk acc.reverse]
  | c :: rest, acc =>
    if c == ',' then String.mk acc.reverse :: splitCommaGo rest []
    else splitCommaGo rest (c :: acc)

/-- Python `str.split(',')`: split on every comma, keeping empty fields. -/
def pySplitComma (s : String) : List String :=
  splitCommaGo s.data []

/-- Helper for `pyWords`: split on whitespace runs, dropping empty fields. -/
def wordsGo : List Char → List Char → List String
  | [], acc => if acc.isEmpty then [] else [String.mk acc.reverse]
  | c :: rest, acc =>
    if isSpaceChar c then
      if acc.isEmpty then wordsGo rest [] else String.mk acc.reverse :: wordsGo rest []
    else wordsGo rest (c :: acc)

/-- Python `str.split()` with no arguments: split on whitespace runs. -/
def pyWords (s : String) : List String :=
  wordsGo s.data []

/-- Python `str.split(maxsplit=1)`: first whitespace-delimited word, then the
remainder of the line with the separating whitespace run removed. -/
def splitMax1 (s : String) : List String :=
  let cs := s.data.dropWhile isSpaceChar
  if cs.isEmpty then []
  else
    let key := cs.takeWhile (fun c => !isSpaceChar c)
    let rest := (cs.dropWhile (fun c => !isSpaceChar c)).dropWhile isSpaceChar
    if rest.isEmpty then [String.mk key] else [String.mk key, String.mk rest]

/-- Python `posixpath.basename`: everything after the last slash. -/
def pyBasename (s : String) : String :=
  String.mk ((s.data.reverse.takeWhile (fun c => c ≠ '/')).reverse)

/-- Hexadecimal digit value, for percent-decoding. -/
def hexVal (c : Char) : Option Nat :=
  if 48 ≤ c.toNat ∧ c.toNat ≤ 57 then some (c.toNat - 48)
  else if 97 ≤ c.toNat ∧ c.toNat ≤ 102 then some (c.toNat - 87)
  else if 65 ≤ c.toNat ∧ c.toNat ≤ 70 then some (c.toNat - 55)
  else none

/-- Helper for `unquote`: percent-decode `%XX` sequences, leaving malformed
escapes untouched (single-byte model of `urllib.parse.unquote`). -/
def unquoteGo : List Char → List Char
  | [] => []
  | '%' :: a :: b :: rest =>
    match hexVal a, hexVal b with
    | some x, some y => Char.ofNat (16 * x + y) :: unquoteGo rest
    | _, _ => '%' :: unquoteGo (a :: b :: rest)
  | c :: rest => c :: unquoteGo rest

/-- Model of `urllib.parse.unquote` (single-byte percent-decoding). -/
def unquote (s : String) : String :=
  String.mk (unquoteGo s.data)

example : pyLower "FOO.Html" = "foo.html" := by decide
example : pyStrip "  a b\t" = "a b" := by decide
example : splitMax1 "ext  html css" = ["ext", "html css"] := by decide
example : splitMax1 "action" = ["action"] := by decide
example : pySplitComma "http, https" = ["http", " https"] := by decide
example : pyWords "open chrome ${FILE_PATH}" = ["open", "chrome", "${FILE_PATH}"] := by decide
example : pyBasename "/tmp/a.HTML" = "a.HTML" := by decide
example : unquote "/a%20b" = "/a b" := by decide
example : pyEndsWith "foo.html" ".html" = true := by decide
example : pyEndsWith "foo.htm" ".html" = false := by decide

/-! ## Models of external Python collaborators -/

/-- The result of URL parsing: the components of `urllib.parse.ParseResult`
used by the source (`scheme`, `netloc`, `path`, `query`, `fragment`). -/
structure ParseResult where
  scheme : String
  netloc : String
  path : String
  query : String
  fragment : String
deriving DecidableEq, Repr

/-- Characters allowed in a URL scheme by `urllib.parse` (letters, digits,
`+`, `-`, `.`). -/
def isSchemeChar (c : Char) : Bool :=
  (65 ≤ c.toNat && c.toNat ≤ 90) || (97 ≤ c.toNat && c.toNat ≤ 122) ||
  (48 ≤ c.toNat && c.toNat ≤ 57) || c == '+' || c == '-' || c == '.'

/-- Model of `urllib.parse.urlparse`: split off the fragment at the first
`#`; recognise a scheme (lower-cased) before a `:` when the prefix is
non-empty and made of scheme characters; a `//` introduces the netloc, up to
the next `/` or `?`; the query follows the first `?`.  Mirrors CPython's
`ValueError` on a netloc with unbalanced square brackets (invalid IPv6
address), the parse failure the source guards against. -/
def urlparseE (url : String) : Except Unit ParseResult :=
  let cs := url.data
  let noFrag := cs.takeWhile (fun c => c ≠ '#')
  let frag := (cs.dropWhile (fun c => c ≠ '#')).drop 1
  let pre := noFrag.takeWhile (fun c => c ≠ ':')
  let schemeRest : String × List Char :=
    if noFrag.any (fun c => c == ':') && !pre.isEmpty && pre.all isSchemeChar then
      (String.mk (pre.map lowerChar), (noFrag.dropWhile (fun c => c ≠ ':')).drop 1)
    else ("", noFrag)
  let scheme := schemeRest.1
  let rest1 := schemeRest.2
  let netlocRest : List Char × List Char :=
    match rest1 with
    | '/' :: '/' :: r =>
      (r.takeWhile (fun c => c ≠ '/' && c ≠ '?'), r.dropWhile (fun c => c ≠ '/' && c ≠ '?'))
    | r => ([], r)
  let netloc := netlocRest.1
  if (netloc.any (fun c => c == '[')) ≠ (netloc.any (fun c => c == ']')) then
    .error ()
  else
    let path := netlocRest.2.takeWhile (fun c => c ≠ '?')
    let query := (netlocRest.2.dropWhile (fun c => c ≠ '?')).drop 1
    .ok ⟨scheme, String.mk netloc, String.mk path, String.mk query, String.mk frag⟩

example : urlparseE "file:///tmp/a.HTML" =
    .ok ⟨"file", "", "/tmp/a.HTML", "", ""⟩ := by rfl
example : urlparseE "ftp://x/y" = .ok ⟨"ftp", "x", "/y", "", ""⟩ := by rfl
example : urlparseE "file:///a.txt" = .ok ⟨"file", "", "/a.txt", "", ""⟩ := by rfl
example : urlparseE "http://host/p?q=1#frag" =
    .ok ⟨"http", "host", "/p", "q=1", "frag"⟩ := by rfl
example : urlparseE "/local/path" = .ok ⟨"", "", "/local/path", "", ""⟩ := by rfl
example : urlparseE "http://[::1" = .error () := by rfl

/-- A compiled regular expression, in a literal-pattern model of Python `re`:
searching looks for the pattern text as a substring. -/
structure RePattern where
  pattern : String
deriving DecidableEq, Repr

/-- Parenthesis balance check: `re.compile` rejects unbalanced groups.  This
models the compile-failure side of Python `re` (a subset of `re.error`). -/
def parensBalanced : List Char → Nat → Bool
  | [], d => d == 0
  | '(' :: rest, d => parensBalanced rest (d + 1)
  | ')' :: rest, d => if d == 0 then false else parensBalanced rest (d - 1)
  | _ :: rest, d => parensBalanced rest d

/-- Model of `re.compile`: fails (with `re.error`) on unbalanced parentheses,
otherwise yields the compiled pattern. -/
def reCompile (pat : String) : Option RePattern :=
  if parensBalanced pat.data 0 then some ⟨pat⟩ else none

/-- Does the haystack start with the needle? -/
def listStartsWith : List Char → List Char → Bool
  | _, [] => true
  | [], _ :: _ => false
  | h :: hs, n :: ns => h == n && listStartsWith hs ns

/-- Substring containment. -/
def listContainsSub (needle : List Char) : List Char → Bool
  | [] => needle.isEmpty
  | c :: rest => listStartsWith (c :: rest) needle || listContainsSub needle rest

/-- Model of `Pattern.search`: in the literal-pattern model a search succeeds
exactly when the pattern text occurs as a substring. -/
def reSearch (p : RePattern) (s : String) : Bool :=
  listContainsSub p.pattern.data s.data

example : reCompile "(" = none := by decide
example : reCompile "tmp" = some ⟨"tmp"⟩ := by decide
example : reSearch ⟨"tmp"⟩ "file:///tmp/a" = true := by decide
example : reSearch ⟨"zz"⟩ "file:///tmp/a" = false := by decide

/-- Fuel-driven glob matching with `*` and `?` (model of `fnmatch.fnmatchcase`
restricted to patterns without character classes).  Every recursive call
shrinks `pattern.length + s.length`, so `fuel` larger than that sum never runs
out. -/
def globMatchFuel : Nat → List Char → List Char → Bool
  | 0, _, _ => false
  | fuel + 1, pattern, s =>
    match pattern, s with
    | [], [] => true
    | [], _ :: _ => false
    | '*' :: ps, [] => globMatchFuel fuel ps []
    | '*' :: ps, c :: ss => globMatchFuel fuel ps (c :: ss) || globMatchFuel fuel ('*' :: ps) ss
    | '?' :: _, [] => false
    | '?' :: ps, _ :: ss => globMatchFuel fuel ps ss
    | _ :: _, [] => false
    | p :: ps, c :: ss => p == c && globMatchFuel fuel ps ss

/-- Model of `fnmatch.fnmatchcase name pat` (case-sensitive glob match). -/
def fnmatchcase (name pat : String) : Bool :=
  globMatchFuel (pat.data.length + name.data.length + 1) pat.data name.data

example : fnmatchcase "photo.png" "*.png" = true := by decide
example : fnmatchcase "photo.png" "*.jpg" = false := by decide
example : fnmatchcase "image/png" "image/*" = true := by decide
example : fnmatchcase "a.txt" "?.txt" = true := by decide

/-- Extension of a path: the characters after the final `.` of the basename,
or none when the basename has no dot. -/
def pathExtension (path : String) : Option String :=
  let base := (pyBasename path).data
  if base.any (fun c => c == '.') then
    some (String.mk ((base.reverse.takeWhile (fun c => c ≠ '.')).reverse))
  else none

/-- Model of `mimetypes.guess_type(path)[0]`: map the (lower-cased) extension
through a small table of common types; unknown extensions are undeterminable. -/
def guessType (path : String) : Option String :=
  match pathExtension path with
  | none => none
  | some ext =>
    match pyLower ext with
    | "html" => some "text/html"
    | "htm" => some "text/html"
    | "png" => some "image/png"
    | "jpg" => some "image/jpeg"
    | "txt" => some "text/plain"
    | "pdf" => some "application/pdf"
    | _ => none

example : guessType "/tmp/photo.PNG" = some "image/png" := by decide
example : guessType "/tmp/noext" = none := by decide

/-! ## Spec-modelled kitty helpers (their sources lie outside this file's
repository snapshot) -/

/-- Modelled from the spec: `to_bool` from `kitty/conf/utils.py` interprets a
"boolean-ish string (`true/false/yes/no/1/0` etc.)", case-insensitively; the
listed truthy spellings map to `true`, everything else to `false`. -/
def to_bool (x : String) : Bool :=
  [ "y", "yes", "true", "1" ].contains (pyLower x)

example : to_bool "true" = true := by decide
example : to_bool "no" = false := by decide

/-- An action argument: kitty action arguments are strings or other
(non-string) values; the non-string case is represented by an integer so
that "non-string arguments pass through unchanged" is observable. -/
inductive ActionArg where
  | str : String → ActionArg
  | num : Int → ActionArg
deriving DecidableEq, Repr

/-- `KeyAction` from `kitty/config.py`: a named invocation with a tuple of
arguments. -/
structure KeyAction where
  func : String
  args : List ActionArg
deriving DecidableEq, Repr

/-- Modelled from the spec: `parse_key_action` from `kitty/config.py` parses
an action line into "a named invocation with positional string/typed
arguments", keeping `${VAR}` placeholder tokens unresolved (parse-time never
collapses them); a degenerate/empty line yields no action. -/
def parse_key_action (rest : String) : Option KeyAction :=
  match pyWords rest with
  | [] => none
  | f :: args => some ⟨f, args.map ActionArg.str⟩

example : parse_key_action "open chrome ${FILE_PATH}" =
    some ⟨"open", [.str "chrome", .str "${FILE_PATH}"]⟩ := by decide

/-- Look up a variable in a substitution context. -/
def lookupEnv (env : List (String × String)) (k : String) : Option String :=
  match env with
  | [] => none
  | (k2, v) :: rest => if k2 == k then some v else lookupEnv rest k

/-- Modelled from the spec: one step of `expandvars` from `kitty/utils.py`
with `fallback_to_os_env=False`: scan for `${NAME}` references and resolve
them against the context mapping; a reference whose name is not in the
context, or an unterminated `${`, is left literal (the spec leaves the
unresolved-reference policy open; leaving the text untouched is the
conservative reading).  Fuel-driven: each step consumes at least one input
character, so `fuel ≥ length` never runs out. -/
def expandVarsFuel (env : List (String × String)) : Nat → List Char → List Char
  | 0, cs => cs
  | fuel + 1, cs =>
    match cs with
    | [] => []
    | '$' :: rest =>
      match rest with
      | '\x7b' :: rest2 =>
        if rest2.any (fun c => c == '\x7d') then
          let name := String.mk (rest2.takeWhile (fun c => c ≠ '\x7d'))
          let after := (rest2.dropWhile (fun c => c ≠ '\x7d')).drop 1
          match lookupEnv env name with
          | some v => v.data ++ expandVarsFuel env fuel after
          | none => '$' :: expandVarsFuel env fuel rest
        else '$' :: expandVarsFuel env fuel rest
      | _ => '$' :: expandVarsFuel env fuel rest
    | c :: rest => c :: expandVarsFuel env fuel rest

/-- Modelled from the spec: `expandvars` resolves `${NAME}` variable
references in a string against the substitution context, with no fallback to
the OS environment. -/
def expandvars (s : String) (env : List (String × String)) : String :=
  String.mk (expandVarsFuel env s.data.length s.data)

example : expandvars "${FILE_PATH}" [("FILE_PATH", "/tmp/a.HTML")] = "/tmp/a.HTML" := by rfl
example : expandvars "x ${A} y" [("A", "1")] = "x 1 y" := by rfl
example : expandvars "${MISSING}" [("A", "1")] = "${MISSING}" := by rfl

/-! ## Data model and rule compiler (`kitty/open_actions.py`) -/

/-- `MatchCriteria` from `open_actions.py`: a criterion kind (`MatchType`,
one of the seven recognised keys, kept as a string as in the source's cast)
and its value. -/
structure MatchCriteria where
  type : String
  value : String
deriving DecidableEq, Repr

/-- `OpenAction` from `open_actions.py`: one rule block, i.e. a tuple of
match criteria and a tuple of actions. -/
structure OpenAction where
  match_criteria : List MatchCriteria
  actions : List KeyAction
deriving DecidableEq, Repr

/-- The seven recognised criterion keys of `parse`. -/
def criterionKinds : List String :=
  ["mime", "ext", "protocol", "file", "path", "url", "has_fragment"]

/-- The loop of `parse`: walk the lines carrying the pending criteria and
pending actions buffers; a blank line flushes a block when both buffers are
non-empty; `#` lines are comments; a line without a second token is skipped;
an `action` line appends a parsed action; a recognised criterion key appends
a criterion (value lower-cased unless the key is `url`); any other key is a
logged, skipped malformed line.  End of input flushes a final block under the
same non-emptiness guard. -/
def parseGo : List String → List MatchCriteria → List KeyAction → List OpenAction
  | [], mc, ac =>
    if !mc.isEmpty && !ac.isEmpty then [⟨mc, ac⟩] else []
  | l :: ls, mc, ac =>
    let line := pyStrip l
    if pyStartsWithHash line then parseGo ls mc ac
    else if line == "" then
      (if !mc.isEmpty && !ac.isEmpty then [⟨mc, ac⟩] else []) ++ parseGo ls [] []
    else
      match splitMax1 line with
      | [key0, rest] =>
        let key := pyLower key0
        if key == "action" then
          match parse_key_action rest with
          | some x => parseGo ls mc (ac ++ [x])
          | none => parseGo ls mc ac
        else if criterionKinds.contains key then
          let rest2 := if key ≠ "url" then pyLower rest else rest
          parseGo ls (mc ++ [⟨key, rest2⟩]) ac
        else parseGo ls mc ac
      | _ => parseGo ls mc ac

/-- `parse` from `open_actions.py`, with the generator's yields collected
into a list in order. -/
def parse (lines : List String) : List OpenAction :=
  parseGo lines [] []

example : parse ["ext html", "action open chrome ${FILE_PATH}"] =
    [⟨[⟨"ext", "html"⟩], [⟨"open", [.str "chrome", .str "${FILE_PATH}"]⟩]⟩] := by decide
example : parse ["", "  ", ""] = [] := by decide
example : parse ["ext html"] = [] := by decide
example : parse ["# comment", "protocol HTTP", "bogus foo", "action open x", "",
    "url ABC", "action a b"] =
    [⟨[⟨"protocol", "http"⟩], [⟨"open", [.str "x"]⟩]⟩,
     ⟨[⟨"url", "ABC"⟩], [⟨"a", [.str "b"]⟩]⟩] := by decide

/-! ## Rule matcher / dispatcher -/

/-- `url_matches_criterion` from `open_actions.py`.  The Python function
returns `True`/`False` from one of the recognised-kind branches and falls off
the end (returning `None`) on an unrecognised kind; the codomain `Option
Bool` records that fall-through as `none`.  Each `try`/`except` of the source
corresponds to the handling of an `Option`-valued primitive model. -/
def url_matches_criterion (purl : ParseResult) (url : String) (mc : MatchCriteria) :
    Option Bool :=
  if mc.type == "url" then
    match reCompile mc.value with
    | none => some false
    | some pat => some (reSearch pat url)
  else if mc.type == "mime" then
    some (match guessType purl.path with
      | none => false
      | some mt =>
        (pySplitComma mc.value).any (fun mpat => fnmatchcase (pyLower mt) (pyStrip mpat)))
  else if mc.type == "ext" then
    some (if purl.path == "" then false
      else (pySplitComma mc.value).any
        (fun ext => pyEndsWith (pyLower purl.path) ("." ++ pyStrip ext)))
  else if mc.type == "protocol" then
    let protocol := pyLower (if purl.scheme == "" then "file" else purl.scheme)
    some ((pySplitComma mc.value).any (fun key => pyStrip key == protocol))
  else if mc.type == "has_fragment" then
    some (to_bool mc.value == !(purl.fragment == ""))
  else if mc.type == "path" then
    some (fnmatchcase (pyLower purl.path) mc.value)
  else if mc.type == "file" then
    some (fnmatchcase (pyLower (pyBasename purl.path)) mc.value)
  else none

/-- Python truthiness of a criterion evaluation result: `None` and `False`
are falsy (the source tests `if not url_matches_criterion(...)`). -/
def criterionTruthy : Option Bool → Bool
  | some true => true
  | _ => false

/-- The loop of `url_matches_criteria`, abstracted over the criterion
evaluator: the body's `try`/`except` catches ANY exception raised by the
evaluation of a single criterion (`Except.error`) and returns `False`, as it
does when the evaluation yields a falsy result. -/
def urlMatchesCriteriaGen (ev : MatchCriteria → Except Unit (Option Bool)) :
    List MatchCriteria → Bool
  | [] => true
  | c :: rest =>
    match ev c with
    | .error _ => false
    | .ok r => if criterionTruthy r then urlMatchesCriteriaGen ev rest else false

/-- `url_matches_criteria` from `open_actions.py`: all criteria of a block
must match.  The concrete evaluator is total (its primitive models are), so
it is injected into the exception-aware loop with `.ok`. -/
def url_matches_criteria (purl : ParseResult) (url : String)
    (criteria : List MatchCriteria) : Bool :=
  urlMatchesCriteriaGen (fun c => .ok (url_matches_criterion purl url c)) criteria

/-- The substitution context built by `actions_for_url_from_list`. -/
def substEnv (url : String) (purl : ParseResult) : List (String × String) :=
  let path := unquote purl.path
  [("URL", url), ("FILE_PATH", path), ("FILE", pyBasename path), ("FRAGMENT", purl.fragment)]

/-- The `expand` closure of `actions_for_url_from_list`: variable expansion
applies to string arguments only; any non-string argument passes through
unchanged. -/
def expandArg (env : List (String × String)) : ActionArg → ActionArg
  | .str s => .str (expandvars s env)
  | a => a

/-- One yielded action: `ac._replace(args=tuple(map(expand, ac.args)))` — a
new invocation with the same name and expanded arguments. -/
def expandAction (env : List (String × String)) (ka : KeyAction) : KeyAction :=
  ⟨ka.func, ka.args.map (expandArg env)⟩

/-- The block-selection loop of `actions_for_url_from_list`: the first block
whose criteria all match, if any. -/
def findMatch (purl : ParseResult) (url : String) : List OpenAction → Option OpenAction
  | [] => none
  | a :: rest =>
    if url_matches_criteria purl url a.match_criteria then some a
    else findMatch purl url rest

/-- `actions_for_url_from_list` from `open_actions.py`, with the generator's
yields collected into a list: parse the URL (an exception yields nothing),
build the substitution context, and yield the expanded actions of the first
fully matching block, stopping there. -/
def actions_for_url_from_list (url : String) (acts : List OpenAction) : List KeyAction :=
  match urlparseE url with
  | .error _ => []
  | .ok purl =>
    match findMatch purl url acts with
    | some a => a.actions.map (expandAction (substEnv url purl))
    | none => []

example : actions_for_url_from_list "file:///tmp/a.HTML"
    (parse ["ext html", "action open chrome ${FILE_PATH}"]) =
    [⟨"open", [.str "chrome", .str "/tmp/a.HTML"]⟩] := by rfl
example : actions_for_url_from_list "ftp://x/y"
    (parse ["protocol http,https", "action open browser ${URL}"]) = [] := by rfl
example : actions_for_url_from_list "file:///a.txt"
    (parse ["has_fragment true", "action open viewer"]) = [] := by rfl
example : actions_for_url_from_list "file:///k/photo.png"
    (parse ["mime image/*", "action open viewer ${FILE}"]) =
    [⟨"open", [.str "viewer", .str "photo.png"]⟩] := by rfl

/-! ## Claims -/

/-- C8: for every URL string on which URL parsing raises, the dispatcher
yields the empty sequence for any rule list: the caller observes "no match",
never an exception or error value. -/
theorem unparsable_url_no_actions (url : String) (acts : List OpenAction)
    (h : urlparseE url = .error ()) : actions_for_url_from_list url acts = [] := by
  unfold actions_for_url_from_list
  rw [h]

theorem unparsable_url_no_actions_witness :
    actions_for_url_from_list "http://[::1"
      [⟨[⟨"protocol", "http"⟩], [⟨"open", [.str "x"]⟩]⟩] = [] :=
  unparsable_url_no_actions "http://[::1"
    [⟨[⟨"protocol", "http"⟩], [⟨"open", [.str "x"]⟩]⟩] rfl

/-- C3: an exception raised while evaluating a single criterion is caught by
the matching loop and makes the whole block fail to match (`false`), never
propagating (the loop's codomain is `Bool`); and a `url` criterion whose
value fails to compile as a regex matches no URL. -/
theorem criterion_errors_contained :
    (∀ (ev : MatchCriteria → Except Unit (Option Bool)) (l : List MatchCriteria),
      (∃ c ∈ l, ev c = .error ()) → urlMatchesCriteriaGen ev l = false) ∧
    (∀ (v : String) (purl : ParseResult) (url : String), reCompile v = none →
      url_matches_criterion purl url ⟨"url", v⟩ = some false) := by
  constructor
  · intro ev l h
    induction l with
    | nil => simp at h
    | cons c rest ih =>
      rcases h with ⟨c0, hc0, herr⟩
      rcases List.mem_cons.mp hc0 with rfl | hmem
      · simp [urlMatchesCriteriaGen, herr]
      · unfold urlMatchesCriteriaGen
        rcases hev : ev c with e | r
        · rfl
        · by_cases ht : criterionTruthy r
          · simp [ht, ih ⟨c0, hmem, herr⟩]
          · simp [ht]
  · intro v purl url h
    unfold url_matches_criterion
    simp [h]

theorem criterion_errors_contained_witness :
    urlMatchesCriteriaGen (fun _ => .error ()) [⟨"ext", "html"⟩] = false ∧
    url_matches_criterion ⟨"file", "", "/a.txt", "", ""⟩ "file:///a.txt"
      ⟨"url", "("⟩ = some false :=
  ⟨criterion_errors_contained.1 (fun _ => .error ()) [⟨"ext", "html"⟩]
      ⟨⟨"ext", "html"⟩, by simp, rfl⟩,
   criterion_errors_contained.2 "(" ⟨"file", "", "/a.txt", "", ""⟩ "file:///a.txt" rfl⟩

/-- C9: end-to-end example: compiling `ext html` / `action open chrome
${FILE_PATH}` and dispatching `file:///tmp/a.HTML` yields exactly one action
named `open`, with the `${FILE_PATH}` argument resolved to the decoded path
`/tmp/a.HTML` (the lower-cased path ends with `.html`, so `ext` matches). -/
theorem ext_example_end_to_end :
    actions_for_url_from_list "file:///tmp/a.HTML"
      (parse ["ext html", "action open chrome ${FILE_PATH}"]) =
    [⟨"open", [.str "chrome", .str "/tmp/a.HTML"]⟩] := by
  rfl

/-- C5: a `protocol` criterion matches exactly when the URL's scheme — taken
as `file` when the scheme component is empty, and lower-cased — equals one of
the comma-separated, whitespace-stripped names in the criterion value (the
value side was already lower-cased by `parse`); and the spec's example: the
config `protocol http,https` does not match the URL `ftp://x/y`. -/
theorem protocol_criterion_semantics :
    (∀ (purl : ParseResult) (url v : String),
      url_matches_criterion purl url ⟨"protocol", v⟩ = some true ↔
        pyLower (if purl.scheme == "" then "file" else purl.scheme) ∈
          (pySplitComma v).map pyStrip) ∧
    actions_for_url_from_list "ftp://x/y"
      (parse ["protocol http,https", "action open browser ${URL}"]) = [] := by
  constructor
  · intro purl url v
    unfold url_matches_criterion
    simp [List.any_eq_true, List.mem_map]
  · rfl

/-- C6: a `has_fragment` criterion matches exactly when the boolean
interpretation of its value agrees with whether the URL's fragment component
is non-empty; and the spec's example: `has_fragment true` does not match
`file:///a.txt`, which has no fragment. -/
theorem has_fragment_criterion_semantics :
    (∀ (purl : ParseResult) (url v : String),
      url_matches_criterion purl url ⟨"has_fragment", v⟩ = some true ↔
        (to_bool v = true ↔ purl.fragment ≠ "")) ∧
    actions_for_url_from_list "file:///a.txt"
      (parse ["has_fragment true", "action open viewer"]) = [] := by
  constructor
  · intro purl url v
    unfold url_matches_criterion
    by_cases hb : to_bool v <;> by_cases hf : purl.fragment = "" <;>
      simp [hb, hf]
  · rfl

/-- Every block emitted by the `parse` loop has non-empty criteria and
non-empty actions: both flush sites are guarded by the non-emptiness of both
pending buffers. -/
theorem parseGo_nonempty (ls : List String) :
    ∀ (mc : List MatchCriteria) (ac : List KeyAction) (oa : OpenAction),
      oa ∈ parseGo ls mc ac → oa.match_criteria ≠ [] ∧ oa.actions ≠ [] := by
  induction ls with
  | nil =>
    intro mc ac oa h
    unfold parseGo at h
    split at h
    · next hg =>
      simp only [List.mem_singleton] at h
      subst h
      simp only [Bool.and_eq_true, Bool.not_eq_true'] at hg
      exact ⟨by simpa [List.isEmpty_iff] using hg.1, by simpa [List.isEmpty_iff] using hg.2⟩
    · simp at h
  | cons l ls ih =>
    intro mc ac oa h
    simp only [parseGo] at h
    split at h
    · exact ih _ _ oa h
    · split at h
      · rcases List.mem_append.mp h with h1 | h2
        · split at h1
          · next hg =>
            simp only [List.mem_singleton] at h1
            subst h1
            simp only [Bool.and_eq_true, Bool.not_eq_true'] at hg
            exact ⟨by simpa [List.isEmpty_iff] using hg.1,
                   by simpa [List.isEmpty_iff] using hg.2⟩
          · simp at h1
        · exact ih _ _ oa h2
      · split at h
        · split at h
          · split at h
            · exact ih _ _ oa h
            · exact ih _ _ oa h
          · split at h
            · exact ih _ _ oa h
            · exact ih _ _ oa h
        · exact ih _ _ oa h

/-- A list of blank (whitespace-only) lines compiles to no rule blocks. -/
theorem parseGo_blank (ls : List String) (h : ∀ l ∈ ls, pyStrip l = "") :
    parseGo ls [] [] = [] := by
  induction ls with
  | nil => rfl
  | cons l ls ih =>
    have hl : pyStrip l = "" := h l (List.mem_cons_self l ls)
    simp only [parseGo, hl]
    exact ih (fun x hx => h x (List.mem_cons_of_mem l hx))

/-- C2: every rule block produced by `parse` has a non-empty criteria tuple
and a non-empty actions tuple; and a config consisting only of blank lines
yields zero blocks. -/
theorem parsed_blocks_nonempty (lines : List String) :
    (∀ oa ∈ parse lines, oa.match_criteria ≠ [] ∧ oa.actions ≠ []) ∧
    ((∀ l ∈ lines, pyStrip l = "") → parse lines = []) :=
  ⟨fun oa h => parseGo_nonempty lines [] [] oa h,
   fun h => parseGo_blank lines h⟩

theorem parsed_blocks_nonempty_witness :
    ((⟨[⟨"ext", "html"⟩], [⟨"open", [.str "x"]⟩]⟩ : OpenAction).match_criteria ≠ [] ∧
      (⟨[⟨"ext", "html"⟩], [⟨"open", [.str "x"]⟩]⟩ : OpenAction).actions ≠ []) ∧
    parse ["", "  ", "\t"] = [] :=
  ⟨(parsed_blocks_nonempty ["ext html", "action open x"]).1
      ⟨[⟨"ext", "html"⟩], [⟨"open", [.str "x"]⟩]⟩ (by decide),
   (parsed_blocks_nonempty ["", "  ", "\t"]).2 (by decide)⟩

/-- The block-selection loop returns the first matching block: blocks before
a match that fail to match are skipped, and the scan stops at the match. -/
theorem findMatch_first (purl : ParseResult) (url : String)
    (l1 l2 : List OpenAction) (b : OpenAction)
    (h1 : ∀ b' ∈ l1, url_matches_criteria purl url b'.match_criteria = false)
    (h2 : url_matches_criteria purl url b.match_criteria = true) :
    findMatch purl url (l1 ++ b :: l2) = some b := by
  induction l1 with
  | nil => simp [findMatch, h2]
  | cons a t ih =>
    have ha : url_matches_criteria purl url a.match_criteria = false :=
      h1 a (List.mem_cons_self a t)
    simp only [List.cons_append, findMatch, ha]
    exact ih (fun b' hb' => h1 b' (List.mem_cons_of_mem a hb'))

/-- C1: when the rule list is any `l1 ++ b :: l2` in which no block of `l1`
fully matches and `b` fully matches, the dispatcher returns exactly the
expanded actions of `b`: the blocks of `l2` are never consulted (the result
does not depend on `l2`), so no action of a later block is ever yielded even
when that block also matches. -/
theorem first_match_wins (url : String) (purl : ParseResult)
    (hp : urlparseE url = .ok purl)
    (l1 l2 : List OpenAction) (b : OpenAction)
    (h1 : ∀ b' ∈ l1, url_matches_criteria purl url b'.match_criteria = false)
    (h2 : url_matches_criteria purl url b.match_criteria = true) :
    actions_for_url_from_list url (l1 ++ b :: l2) =
      b.actions.map (expandAction (substEnv url purl)) := by
  unfold actions_for_url_from_list
  rw [hp]
  simp only [findMatch_first purl url l1 l2 b h1 h2]

theorem first_match_wins_witness :
    actions_for_url_from_list "file:///a.txt"
      [⟨[⟨"protocol", "http"⟩], [⟨"open", [.str "first"]⟩]⟩,
       ⟨[⟨"ext", "txt"⟩], [⟨"open", [.str "second"]⟩]⟩,
       ⟨[⟨"protocol", "file"⟩], [⟨"open", [.str "third"]⟩]⟩] =
      [⟨"open", [.str "second"]⟩] :=
  first_match_wins "file:///a.txt" ⟨"file", "", "/a.txt", "", ""⟩ rfl
    [⟨[⟨"protocol", "http"⟩], [⟨"open", [.str "first"]⟩]⟩]
    [⟨[⟨"protocol", "file"⟩], [⟨"open", [.str "third"]⟩]⟩]
    ⟨[⟨"ext", "txt"⟩], [⟨"open", [.str "second"]⟩]⟩
    (by intro b' hb'; rw [List.mem_singleton] at hb'; subst hb'; rfl)
    rfl

/-- A block selected by the block-selection loop is one of the stored
blocks. -/
theorem findMatch_mem (purl : ParseResult) (url : String) :
    ∀ (acts : List OpenAction) (b : OpenAction),
      findMatch purl url acts = some b → b ∈ acts := by
  intro acts
  induction acts with
  | nil => intro b h; simp [findMatch] at h
  | cons a t ih =>
    intro b h
    unfold findMatch at h
    split at h
    · simp only [Option.some_inj] at h
      subst h
      exact List.mem_cons_self a t
    · exact List.mem_cons_of_mem a (ih b h)

/-- C7: the yielded action invocations are new copies of the stored
templates of the matched block: each yielded invocation keeps the template's
name while its arguments go through `expandArg`, which applies variable
expansion exactly to string-typed arguments and passes every non-string
argument through unchanged.  The stored block (an element of the immutable
input list) is itself returned intact by `findMatch`, never altered. -/
theorem matched_actions_are_fresh_copies :
    (∀ (url : String) (purl : ParseResult) (acts : List OpenAction) (b : OpenAction),
      urlparseE url = .ok purl → findMatch purl url acts = some b →
      b ∈ acts ∧
      actions_for_url_from_list url acts =
        b.actions.map (fun a => ⟨a.func, a.args.map (expandArg (substEnv url purl))⟩)) ∧
    (∀ (env : List (String × String)) (n : Int), expandArg env (.num n) = .num n) ∧
    (∀ (env : List (String × String)) (s : String),
      expandArg env (.str s) = .str (expandvars s env)) := by
  refine ⟨?_, fun env n => rfl, fun env s => rfl⟩
  intro url purl acts b hp hf
  refine ⟨findMatch_mem purl url acts b hf, ?_⟩
  unfold actions_for_url_from_list
  rw [hp]
  simp only [hf]
  rfl

theorem matched_actions_are_fresh_copies_witness :
    (⟨[⟨"ext", "txt"⟩], [⟨"open", [.str "${FILE}", .num 3]⟩]⟩ : OpenAction) ∈
      [⟨[⟨"ext", "txt"⟩], [⟨"open", [.str "${FILE}", .num 3]⟩]⟩] ∧
    actions_for_url_from_list "file:///d/a.txt"
      [⟨[⟨"ext", "txt"⟩], [⟨"open", [.str "${FILE}", .num 3]⟩]⟩] =
      ([⟨"open", [.str "${FILE}", .num 3]⟩] : List KeyAction).map
        (fun a => ⟨a.func, a.args.map
          (expandArg (substEnv "file:///d/a.txt" ⟨"file", "", "/d/a.txt", "", ""⟩))⟩) :=
  matched_actions_are_fresh_copies.1 "file:///d/a.txt"
    ⟨"file", "", "/d/a.txt", "", ""⟩
    [⟨[⟨"ext", "txt"⟩], [⟨"open", [.str "${FILE}", .num 3]⟩]⟩]
    ⟨[⟨"ext", "txt"⟩], [⟨"open", [.str "${FILE}", .num 3]⟩]⟩ rfl rfl

/-- C4: when a stripped config line splits into a key and a rest and the
lower-cased key is one of the seven criterion kinds, `parse` appends a
criterion whose stored value is the lower-cased rest exactly when the kind is
not `url`, and the verbatim rest when it is `url`; consequently `EXT html`
matches a path ending in `.HTML` (the `ext` evaluator also lower-cases the
URL path at match time), while `url AbC` keeps its mixed-case value. -/
theorem criterion_value_case_normalized :
    (∀ (ls : List String) (mc : List MatchCriteria) (ac : List KeyAction)
        (l key0 rest : String),
      splitMax1 (pyStrip l) = [key0, rest] →
      pyStartsWithHash (pyStrip l) = false →
      criterionKinds.contains (pyLower key0) = true →
      parseGo (l :: ls) mc ac =
        parseGo ls (mc ++ [⟨pyLower key0,
          if pyLower key0 ≠ "url" then pyLower rest else rest⟩]) ac) ∧
    actions_for_url_from_list "file:///d/FOO.HTML"
      (parse ["EXT html", "action open viewer"]) =
      [⟨"open", [.str "viewer"]⟩] ∧
    parse ["url AbC", "action open x"] =
      [⟨[⟨"url", "AbC"⟩], [⟨"open", [.str "x"]⟩]⟩] := by
  refine ⟨?_, by rfl, by rfl⟩
  intro ls mc ac l key0 rest hsplit hhash hkind
  have hne : (pyStrip l == "") = false := by
    rcases hb : (pyStrip l == "") with _ | _
    · rfl
    · rw [eq_of_beq hb] at hsplit
      simp [splitMax1] at hsplit
  have hmem : pyLower key0 ∈ criterionKinds := by
    simpa using hkind
  have hact : (pyLower key0 == "action") = false := by
    simp only [criterionKinds, List.mem_cons, List.not_mem_nil, or_false] at hmem
    rcases hmem with h|h|h|h|h|h|h <;> rw [h] <;> rfl
  simp only [parseGo, hhash, hne, hsplit, hact, hkind, Bool.false_eq_true, if_false, if_true]

theorem criterion_value_case_normalized_witness :
    parseGo ["EXT html"] [] [] =
      parseGo [] ([] ++ [⟨pyLower "EXT",
        if pyLower "EXT" ≠ "url" then pyLower "html" else "html"⟩]) [] :=
  criterion_value_case_normalized.1 [] [] [] "EXT html" "EXT" "html" rfl rfl rfl

/-- Every criterion stored in a block produced by the `parse` loop has one of
the seven recognised kinds, provided the pending criteria buffer already
satisfies that invariant: the only append site is guarded by the key check. -/
theorem parseGo_kinds (ls : List String) :
    ∀ (mc : List MatchCriteria) (ac : List KeyAction),
      (∀ c ∈ mc, criterionKinds.contains c.type = true) →
      ∀ oa ∈ parseGo ls mc ac, ∀ c ∈ oa.match_criteria,
        criterionKinds.contains c.type = true := by
  induction ls with
  | nil =>
    intro mc ac hmc oa hoa c hc
    unfold parseGo at hoa
    split at hoa
    · simp only [List.mem_singleton] at hoa
      subst hoa
      exact hmc c hc
    · simp at hoa
  | cons l ls ih =>
    intro mc ac hmc oa hoa c hc
    simp only [parseGo] at hoa
    split at hoa
    · exact ih mc ac hmc oa hoa c hc
    · split at hoa
      · rcases List.mem_append.mp hoa with h1 | h2
        · split at h1
          · simp only [List.mem_singleton] at h1
            subst h1
            exact hmc c hc
          · simp at h1
        · exact ih [] [] (by simp) oa h2 c hc
      · split at hoa
        · split at hoa
          · split at hoa
            · exact ih mc _ hmc oa hoa c hc
            · exact ih mc ac hmc oa hoa c hc
          · split at hoa
            · next hcont =>
              refine ih _ ac ?_ oa hoa c hc
              intro c' hc'
              rcases List.mem_append.mp hc' with h | h
              · exact hmc c' h
              · rw [List.mem_singleton] at h
                subst h
                exact hcont
            · exact ih mc ac hmc oa hoa c hc
        · exact ih mc ac hmc oa hoa c hc

/-- C10: for every criterion actually produced by `parse` — whose kind is
thus one of the seven recognised kinds — `url_matches_criterion` returns a
boolean (`some _`): the implicit fall-through at the end of the function,
which returns no value (`none`) on an unrecognised kind, is unreachable on
such inputs. -/
theorem recognized_kinds_return_bool (lines : List String) (oa : OpenAction)
    (c : MatchCriteria) (purl : ParseResult) (url : String)
    (h1 : oa ∈ parse lines) (h2 : c ∈ oa.match_criteria) :
    (url_matches_criterion purl url c).isSome = true := by
  have hk : criterionKinds.contains c.type = true :=
    parseGo_kinds lines [] [] (by simp) oa h1 c h2
  have hmem : c.type ∈ criterionKinds := by simpa using hk
  simp only [criterionKinds, List.mem_cons, List.not_mem_nil, or_false] at hmem
  rcases hmem with h|h|h|h|h|h|h <;> unfold url_matches_criterion <;> rw [h] <;>
    first
      | rfl
      | (cases reCompile c.value <;> rfl)

theorem recognized_kinds_return_bool_witness :
    (url_matches_criterion ⟨"http", "x", "/y", "", ""⟩ "http://x/y"
      ⟨"protocol", "http"⟩).isSome = true :=
  recognized_kinds_return_bool ["protocol http", "action open x"]
    ⟨[⟨"protocol", "http"⟩], [⟨"open", [.str "x"]⟩]⟩ ⟨"protocol", "http"⟩
    ⟨"http", "x", "/y", "", ""⟩ "http://x/y" (by decide) (by decide)

theorem protocol_criterion_semantics_witness :
    url_matches_criterion ⟨"ftp", "x", "/y", "", ""⟩ "ftp://x/y"
        ⟨"protocol", "http,https"⟩ = some true ↔
      pyLower (if ("ftp" : String) == "" then "file" else "ftp") ∈
        (pySplitComma "http,https").map pyStrip :=
  protocol_criterion_semantics.1 ⟨"ftp", "x", "/y", "", ""⟩ "ftp://x/y" "http,https"

theorem has_fragment_criterion_semantics_witness :
    url_matches_criterion ⟨"file", "", "/a.txt", "", ""⟩ "file:///a.txt"
        ⟨"has_fragment", "true"⟩ = some true ↔
      (to_bool "true" = true ↔ ("" : String) ≠ "") :=
  has_fragment_criterion_semantics.1 ⟨"file", "", "/a.txt", "", ""⟩ "file:///a.txt" "true"
